import Mathlib

/-!
# Verification of the DOLFINx geometry module (`python/dolfinx/geometry.py`)

A shallow embedding of the geometric-search layer: axis-aligned bounding
boxes, bounding-box trees, point/tree and tree/tree collision queries,
closest-entity search accelerated by a midpoint tree, elementwise squared
distances, and the GJK convex-distance kernel.  The Python file under
`src/` is a thin wrapper delegating to a compiled extension; the wrapper
logic (`BoundingBoxTree.__init__`) is embedded directly from the Python
source, while the delegated kernels are modelled from the specification,
as marked on each definition.

Coordinates are embedded as exact rationals.
-/

/-- A 3D point with rational coordinates. -/
structure Pt where
  x : ℚ
  y : ℚ
  z : ℚ
deriving DecidableEq, Repr

namespace Pt

/-- Componentwise subtraction. -/
def sub (a b : Pt) : Pt := ⟨a.x - b.x, a.y - b.y, a.z - b.z⟩

/-- Componentwise negation. -/
def neg (a : Pt) : Pt := ⟨-a.x, -a.y, -a.z⟩

/-- Componentwise addition. -/
def add (a b : Pt) : Pt := ⟨a.x + b.x, a.y + b.y, a.z + b.z⟩

/-- Scalar multiple. -/
def smul (t : ℚ) (a : Pt) : Pt := ⟨t * a.x, t * a.y, t * a.z⟩

/-- Euclidean inner product. -/
def dot (a b : Pt) : ℚ := a.x * b.x + a.y * b.y + a.z * b.z

/-- Squared Euclidean norm. -/
def normSq (a : Pt) : ℚ := a.dot a

/-- The origin. -/
def zero : Pt := ⟨0, 0, 0⟩

/-- Componentwise minimum. -/
def pmin (a b : Pt) : Pt := ⟨min a.x b.x, min a.y b.y, min a.z b.z⟩

/-- Componentwise maximum. -/
def pmax (a b : Pt) : Pt := ⟨max a.x b.x, max a.y b.y, max a.z b.z⟩

end Pt

/-- An axis-aligned box given by its two corner points; it is empty when
`lo` exceeds `hi` on some axis. -/
structure Box where
  lo : Pt
  hi : Pt
deriving DecidableEq, Repr

/-- Inclusive point-in-box test on every axis. -/
abbrev boxContainsPoint (b : Box) (p : Pt) : Prop :=
  b.lo.x ≤ p.x ∧ p.x ≤ b.hi.x ∧ b.lo.y ≤ p.y ∧ p.y ≤ b.hi.y ∧
    b.lo.z ≤ p.z ∧ p.z ≤ b.hi.z

/-- Inclusive box-box overlap test: boxes touching only at a boundary
still collide. -/
abbrev boxesCollide (a b : Box) : Prop :=
  a.lo.x ≤ b.hi.x ∧ b.lo.x ≤ a.hi.x ∧ a.lo.y ≤ b.hi.y ∧ b.lo.y ≤ a.hi.y ∧
    a.lo.z ≤ b.hi.z ∧ b.lo.z ≤ a.hi.z

/-- `inner` is contained in `outer`, componentwise. -/
abbrev boxSubset (inner outer : Box) : Prop :=
  outer.lo.x ≤ inner.lo.x ∧ outer.lo.y ≤ inner.lo.y ∧ outer.lo.z ≤ inner.lo.z ∧
    inner.hi.x ≤ outer.hi.x ∧ inner.hi.y ≤ outer.hi.y ∧ inner.hi.z ≤ outer.hi.z

/-- A box is non-empty when `lo ≤ hi` on every axis. -/
abbrev boxNonEmpty (b : Box) : Prop :=
  b.lo.x ≤ b.hi.x ∧ b.lo.y ≤ b.hi.y ∧ b.lo.z ≤ b.hi.z

/-- Modelled from the spec: `pad(box, epsilon)` expands a non-empty box by
`epsilon` on every side; the empty box is returned unchanged.  The
implementation lives in the compiled geometry kernel, absent from `src/`. -/
def pad (b : Box) (eps : ℚ) : Box :=
  if boxNonEmpty b then
    ⟨⟨b.lo.x - eps, b.lo.y - eps, b.lo.z - eps⟩,
     ⟨b.hi.x + eps, b.hi.y + eps, b.hi.z + eps⟩⟩
  else b

/-- Modelled from the spec: the tight axis-aligned bounding box of a
vertex list (empty sentinel box for no vertices).  The implementation
lives in the compiled geometry kernel, absent from `src/`. -/
def tightBox (vs : List Pt) : Box :=
  match vs with
  | [] => ⟨⟨0, 0, 0⟩, ⟨-1, -1, -1⟩⟩
  | v :: rest => rest.foldl (fun b w => ⟨b.lo.pmin w, b.hi.pmax w⟩) ⟨v, v⟩

/-- Union (componentwise hull) of two boxes. -/
def boxUnion (a b : Box) : Box := ⟨a.lo.pmin b.lo, a.hi.pmax b.hi⟩

/-- Squared distance from a coordinate to an interval. -/
def axDist (x lo hi : ℚ) : ℚ := max (lo - x) (max 0 (x - hi))

/-- Minimum possible squared distance from a point to a box. -/
def boxDistSq (p : Pt) (b : Box) : ℚ :=
  axDist p.x b.lo.x b.hi.x ^ 2 + axDist p.y b.lo.y b.hi.y ^ 2 +
    axDist p.z b.lo.z b.hi.z ^ 2

/-- A node of a bounding-box tree: a leaf owns one (entity, box) pair, an
internal node owns a box and two children. -/
inductive BBNode where
  | leaf (entity : ℕ) (box : Box)
  | node (box : Box) (l : BBNode) (r : BBNode)
deriving DecidableEq, Repr

namespace BBNode

/-- The box stored at a node. -/
def boxOf : BBNode → Box
  | .leaf _ b => b
  | .node b _ _ => b

/-- All entity indices stored at the leaves, left to right. -/
def entitiesOf : BBNode → List ℕ
  | .leaf e _ => [e]
  | .node _ l r => entitiesOf l ++ entitiesOf r

/-- The leftmost leaf of a node. -/
def leftmostLeaf : BBNode → ℕ × Box
  | .leaf e b => (e, b)
  | .node _ l _ => leftmostLeaf l

/-- Structural well-formedness of boxes: each internal node's box contains
its children's boxes (the spec builds internal boxes as the union of the
children's boxes). -/
def boxWF : BBNode → Bool
  | .leaf _ _ => true
  | .node b l r =>
      decide (boxSubset (boxOf l) b) && decide (boxSubset (boxOf r) b) &&
        boxWF l && boxWF r

/-- `f`-boundedness: every node's box minimum distance to `p` is a lower
bound for `f` on every entity below that node (the defining property of a
bounding-box tree, with `f` the exact distance function at `p`). -/
def nodeWF (p : Pt) (f : ℕ → ℚ) : BBNode → Bool
  | .leaf e b => decide (boxDistSq p b ≤ f e)
  | .node b l r =>
      (entitiesOf l ++ entitiesOf r).all (fun e => decide (boxDistSq p b ≤ f e)) &&
        nodeWF p f l && nodeWF p f r

/-- A leaf with entity `e` and box `bx` occurs in the node. -/
inductive LeafIn : ℕ → Box → BBNode → Prop where
  | leaf (e : ℕ) (b : Box) : LeafIn e b (.leaf e b)
  | left {e : ℕ} {bx : Box} (b : Box) {l r : BBNode} :
      LeafIn e bx l → LeafIn e bx (.node b l r)
  | right {e : ℕ} {bx : Box} (b : Box) {l r : BBNode} :
      LeafIn e bx r → LeafIn e bx (.node b l r)

end BBNode

open BBNode

/-- Coordinate of a point along an axis index (0 = x, 1 = y, else z). -/
def axCoord : ℕ → Pt → ℚ
  | 0, p => p.x
  | 1, p => p.y
  | _, p => p.z

/-- Centre of a box. -/
def centroid (b : Box) : Pt :=
  ⟨(b.lo.x + b.hi.x) / 2, (b.lo.y + b.hi.y) / 2, (b.lo.z + b.hi.z) / 2⟩

/-- Extent of the centroids of a box list along an axis. -/
def extentOn (ax : ℕ) (l : List (ℕ × Box)) : ℚ :=
  match l.map (fun pr => axCoord ax (centroid pr.2)) with
  | [] => 0
  | c :: rest => rest.foldl max c - rest.foldl min c

/-- Modelled from the spec: the axis with the largest centroid extent,
used to choose the median-split direction. -/
def largestAxis (l : List (ℕ × Box)) : ℕ :=
  let e0 := extentOn 0 l
  let e1 := extentOn 1 l
  let e2 := extentOn 2 l
  if e1 ≥ e0 ∧ e1 ≥ e2 then 1 else if e2 ≥ e0 ∧ e2 ≥ e1 then 2 else 0

/-- Modelled from the spec: recursive median-split construction of the
bounding-box tree over a list of (entity, box) pairs: sort by centroid
along the largest-extent axis, split at the median, recurse; a single
pair becomes a leaf and an internal node's box is the union of its
children's boxes.  The implementation lives in the compiled
`BoundingBoxTree` constructor, absent from `src/`. -/
def buildNode : List (ℕ × Box) → Option BBNode
  | [] => none
  | [pr] => some (.leaf pr.1 pr.2)
  | p :: q :: rest =>
      let l := p :: q :: rest
      let ax := largestAxis l
      let sorted := l.mergeSort
        (fun a b => decide (axCoord ax (centroid a.2) ≤ axCoord ax (centroid b.2)))
      let k := sorted.length / 2
      match buildNode (sorted.take k), buildNode (sorted.drop k) with
      | some ln, some rn => some (.node (boxUnion (boxOf ln) (boxOf rn)) ln rn)
      | _, _ => none
termination_by l => l.length
decreasing_by
  · simp only [List.length_take, List.length_mergeSort, List.length_cons]
    omega
  · simp only [List.length_drop, List.length_mergeSort, List.length_cons]
    omega

/-- Modelled from the spec: a bounding-box tree is an optional root node,
`none` being the explicit empty-tree sentinel for zero entities. -/
def buildTree (l : List (ℕ × Box)) : Option BBNode := buildNode l

/-- Entities of an optional tree (empty tree has none). -/
def treeEntities : Option BBNode → List ℕ
  | none => []
  | some n => entitiesOf n

/-- Cross product of two vectors. -/
def Pt.cross (a b : Pt) : Pt :=
  ⟨a.y * b.z - a.z * b.y, a.z * b.x - a.x * b.z, a.x * b.y - a.y * b.x⟩

/-- Of two (closest point, sub-simplex) candidates, keep the one closer
to the origin. -/
def pickBest (u v : Pt × List Pt) : Pt × List Pt :=
  if v.1.normSq < u.1.normSq then v else u

/-- Modelled from the spec: closest point of the origin on a segment,
with the minimal sub-simplex supporting it; a degenerate (zero-length)
segment falls back to the vertex.  The implementation lives in the
compiled geometry kernel, absent from `src/`. -/
def closestSegment (a b : Pt) : Pt × List Pt :=
  let d := b.sub a
  let den := d.dot d
  if den = 0 then (a, [a])
  else
    let t := -(a.dot d) / den
    if t ≤ 0 then (a, [a])
    else if 1 ≤ t then (b, [b])
    else (a.add (Pt.smul t d), [a, b])

/-- Modelled from the spec: closest point of the origin on a triangle via
the closest-point-on-simplex region analysis, with the minimal
sub-simplex supporting it; degenerate triangles fall back to the edges.
The implementation lives in the compiled geometry kernel, absent from
`src/`. -/
def closestTriangle (a b c : Pt) : Pt × List Pt :=
  let ab := b.sub a
  let ac := c.sub a
  let d1 := ab.dot a.neg
  let d2 := ac.dot a.neg
  if d1 ≤ 0 ∧ d2 ≤ 0 then (a, [a])
  else
    let d3 := ab.dot b.neg
    let d4 := ac.dot b.neg
    if 0 ≤ d3 ∧ d4 ≤ d3 then (b, [b])
    else
      let vc := d1 * d4 - d3 * d2
      if vc ≤ 0 ∧ 0 ≤ d1 ∧ d3 ≤ 0 then
        let den := d1 - d3
        if den = 0 then (a, [a])
        else (a.add (Pt.smul (d1 / den) ab), [a, b])
      else
        let d5 := ab.dot c.neg
        let d6 := ac.dot c.neg
        if 0 ≤ d6 ∧ d5 ≤ d6 then (c, [c])
        else
          let vb := d5 * d2 - d1 * d6
          if vb ≤ 0 ∧ 0 ≤ d2 ∧ d6 ≤ 0 then
            let den := d2 - d6
            if den = 0 then (a, [a])
            else (a.add (Pt.smul (d2 / den) ac), [a, c])
          else
            let va := d3 * d6 - d5 * d4
            if va ≤ 0 ∧ 0 ≤ d4 - d3 ∧ 0 ≤ d5 - d6 then
              let den := (d4 - d3) + (d5 - d6)
              if den = 0 then (b, [b])
              else (b.add (Pt.smul ((d4 - d3) / den) (c.sub b)), [b, c])
            else
              let den := va + vb + vc
              if den = 0 then
                pickBest (pickBest (closestSegment a b) (closestSegment a c))
                  (closestSegment b c)
              else
                (a.add ((Pt.smul (vb / den) ab).add (Pt.smul (vc / den) ac)),
                  [a, b, c])

/-- Modelled from the spec: closest point of the origin on a tetrahedron:
if the tetrahedron is non-degenerate and the origin lies on the inner
side of all four faces the origin itself is returned (intersection),
otherwise the best of the four face projections; a degenerate (coplanar)
tetrahedron falls back to the faces.  The implementation lives in the
compiled geometry kernel, absent from `src/`. -/
def closestTetra (a b c d : Pt) : Pt × List Pt :=
  let f1 := closestTriangle a b c
  let f2 := closestTriangle a b d
  let f3 := closestTriangle a c d
  let f4 := closestTriangle b c d
  let best := pickBest (pickBest (pickBest f1 f2) f3) f4
  let det := (d.sub a).dot ((b.sub a).cross (c.sub a))
  if det = 0 then best
  else
    let inside1 :=
      let n := (b.sub a).cross (c.sub a)
      0 ≤ (a.neg.dot n) * ((d.sub a).dot n)
    let inside2 :=
      let n := (b.sub a).cross (d.sub a)
      0 ≤ (a.neg.dot n) * ((c.sub a).dot n)
    let inside3 :=
      let n := (c.sub a).cross (d.sub a)
      0 ≤ (a.neg.dot n) * ((b.sub a).dot n)
    let inside4 :=
      let n := (c.sub b).cross (d.sub b)
      0 ≤ (b.neg.dot n) * ((a.sub b).dot n)
    if inside1 ∧ inside2 ∧ inside3 ∧ inside4 then (Pt.zero, [a, b, c, d])
    else best

/-- Modelled from the spec: closest point of the origin on a simplex of
one to four vertices together with the minimal sub-simplex containing it
(the GJK simplex-reduction step).  The implementation lives in the
compiled geometry kernel, absent from `src/`. -/
def closestSimplex : List Pt → Pt × List Pt
  | [] => (Pt.zero, [])
  | [a] => (a, [a])
  | [a, b] => closestSegment a b
  | [a, b, c] => closestTriangle a b c
  | a :: b :: c :: d :: _ => closestTetra a b c d

/-- Modelled from the spec: exact squared distance from a point to the
simplex spanned by a vertex list, by translating the vertices so the
point is the origin and projecting onto the simplex.  The implementation
lives in the compiled geometry kernel, absent from `src/`. -/
def squared_distance_point_to_simplex (p : Pt) (vs : List Pt) : ℚ :=
  ((closestSimplex (vs.map (fun v => v.sub p))).1).normSq

/-- The owned/ghost sizes of an entity index map (interface of the
out-of-scope mesh collaborator). -/
structure IndexMap where
  size_local : ℕ
  num_ghosts : ℕ

/-- Mesh topology interface: an optional index map per dimension (`none`
when entities of that dimension have not been created). -/
structure MeshTopology where
  index_map : ℕ → Option IndexMap

/-- Mesh accessor interface (spec §6): an index map per dimension and,
per (dimension, entity), the entity's vertex coordinates. -/
structure MeshT where
  topology : MeshTopology
  vertices : ℕ → ℕ → List Pt

/-- Modelled from the spec: the padded tight bounding box of an entity's
vertices. -/
def entityBox (mesh : MeshT) (dim e : ℕ) : Box := tightBox (mesh.vertices dim e)

/-- Embedded from `BoundingBoxTree.__init__` in
`src/python/dolfinx/geometry.py`: look up the entity index map of the
requested dimension, fail if it is absent, default the entity list to all
owned and ghost entities, then build the tree (the delegated
`super().__init__` tree build is modelled from the spec by `buildTree`). -/
def BoundingBoxTree.init (mesh : MeshT) (dim : ℕ) (entities : Option (List ℕ))
    (padding : ℚ) : Except String (Option BBNode) :=
  match mesh.topology.index_map dim with
  | none =>
      Except.error ("Mesh entities of dimension " ++ toString dim ++
        " have not been created.")
  | some m =>
      let ents := entities.getD (List.range (m.size_local + m.num_ghosts))
      Except.ok (buildTree (ents.map (fun e => (e, pad (entityBox mesh dim e) padding))))

/-- Modelled from the spec: `squared_distance` checks that the entity and
point arrays have equal length, failing with `InvalidArgument` before any
distance computation, then computes the exact squared distance
elementwise over the paired inputs.  The implementation lives in the
compiled geometry kernel, absent from `src/`. -/
def squared_distance (mesh : MeshT) (dim : ℕ) (entities : List ℕ)
    (points : List Pt) : Except String (List ℚ) :=
  if entities.length ≠ points.length then
    Except.error "InvalidArgument: entities and points have different lengths"
  else
    Except.ok (List.zipWith
      (fun e p => squared_distance_point_to_simplex p (mesh.vertices dim e))
      entities points)

/-- Clamp a squared distance to zero (the spec's numerical policy for
detected intersections and small negative noise). -/
def clamp0 (q : ℚ) : ℚ := max 0 q

/-- Modelled from the spec: the fixed GJK iteration cap (the spec mandates
a bounded iteration count; the concrete value is unspecified there). -/
def gjkMaxIter : ℕ := 1000

/-- Modelled from the spec: the fixed relative improvement tolerance of
the GJK termination test (the concrete value is unspecified there). -/
def gjkRelTol : ℚ := 1 / 1000000000000

/-- Modelled from the spec: the support point of a finite vertex set in a
direction (the vertex with the largest projection); an empty vertex set
is an error.  The implementation lives in the compiled GJK kernel, absent
from `src/`. -/
def supportPt (vs : List Pt) (d : Pt) : Except String Pt :=
  match vs with
  | [] => Except.error "GJK: empty vertex set"
  | v :: rest =>
      Except.ok (rest.foldl (fun best w => if best.dot d < w.dot d then w else best) v)

/-- Modelled from the spec: the support point of the Minkowski difference
of the two hulls in direction `d`. -/
def minkSupport (vs1 vs2 : List Pt) (d : Pt) : Except String Pt :=
  match supportPt vs1 d with
  | Except.error e => Except.error e
  | Except.ok s1 =>
      match supportPt vs2 d.neg with
      | Except.error e => Except.error e
      | Except.ok s2 => Except.ok (s1.sub s2)

/-- Modelled from the spec: one bounded GJK iteration pass.  At each step
the simplex is reduced to the minimal sub-simplex supporting the closest
point `v` to the origin; the algorithm exits with 0 when the origin is
reached, exits with the current estimate when the support step cannot
improve it beyond the relative tolerance, and on fuel exhaustion returns
the best estimate found rather than failing.  The implementation lives in
the compiled GJK kernel, absent from `src/`. -/
def gjkLoop (vs1 vs2 : List Pt) : ℕ → List Pt → Except String ℚ
  | 0, simplex =>
      let v := (closestSimplex simplex).1
      Except.ok (clamp0 v.normSq)
  | fuel + 1, simplex =>
      let vr := closestSimplex simplex
      let v := vr.1
      if v.normSq = 0 then Except.ok 0
      else
        match minkSupport vs1 vs2 v.neg with
        | Except.error e => Except.error e
        | Except.ok w =>
            if v.normSq - v.dot w ≤ gjkRelTol * v.normSq then
              Except.ok (clamp0 v.normSq)
            else gjkLoop vs1 vs2 fuel (w :: vr.2)

/-- Modelled from the spec: the GJK distance kernel over two finite
non-empty vertex sets, iterating from the initial one-point simplex built
from the first vertices.  The implementation lives in the compiled GJK
kernel, absent from `src/`. -/
def compute_distance_gjk (vs1 vs2 : List Pt) : Except String ℚ :=
  match vs1, vs2 with
  | v :: _, w :: _ => gjkLoop vs1 vs2 gjkMaxIter [v.sub w]
  | _, _ => Except.error "GJK: empty vertex set"

/-- Modelled from the spec: best-first descent of a bounding-box tree for
the nearest entity to `p` under the entity-distance function `f`:
subtrees whose box's minimum possible distance exceeds the current bound
are pruned, and reaching a leaf tightens the bound when its distance is
smaller.  The implementation lives in the compiled geometry kernel,
absent from `src/`. -/
def closestDescend (p : Pt) (f : ℕ → ℚ) : BBNode → ℕ × ℚ → ℕ × ℚ
  | .leaf e b, acc =>
      if boxDistSq p b > acc.2 then acc
      else if f e < acc.2 then (e, f e) else acc
  | .node b l r, acc =>
      if boxDistSq p b > acc.2 then acc
      else closestDescend p f r (closestDescend p f l acc)

/-- Modelled from the spec: the two-phase closest-entity search for one
point: phase one descends the midpoint tree to obtain a candidate entity
and its midpoint distance as the initial upper bound, phase two descends
the full tree with exact distances, pruning by the bound.  The
implementation lives in the compiled geometry kernel, absent from
`src/`. -/
def closestEntityPoint (tn mn : BBNode) (exactD midD : ℕ → Pt → ℚ) (p : Pt) : ℤ :=
  let e0 := (leftmostLeaf mn).1
  let phase1 := closestDescend p (fun e => midD e p) mn (e0, midD e0 p)
  let phase2 := closestDescend p (fun e => exactD e p) tn phase1
  (phase2.1 : ℤ)

/-- Modelled from the spec: `compute_closest_entity` maps each point to
its closest entity; a tree with zero entities yields the sentinel `-1`
for every point.  `exactD` is the exact squared entity distance and
`midD` the squared entity-midpoint distance used by the accelerator.  The
implementation lives in the compiled geometry kernel, absent from
`src/`. -/
def compute_closest_entity (tree midTree : Option BBNode)
    (exactD midD : ℕ → Pt → ℚ) (points : List Pt) : List ℤ :=
  match tree, midTree with
  | some tn, some mn => points.map (closestEntityPoint tn mn exactD midD)
  | _, _ => points.map (fun _ => -1)

/-- Modelled from the spec: entities of a tree whose boxes contain `p`,
by recursive descent pruning subtrees whose box misses `p`.  The
implementation lives in the compiled geometry kernel, absent from
`src/`. -/
def pointCollisions (p : Pt) : BBNode → List ℕ
  | .leaf e b => if boxContainsPoint b p then [e] else []
  | .node b l r =>
      if boxContainsPoint b p then pointCollisions p l ++ pointCollisions p r
      else []

/-- Modelled from the spec: `compute_collisions(tree, points)` returns one
adjacency row per point holding the entities whose boxes contain the
point; the empty tree yields an empty row for every point.  The
implementation lives in the compiled geometry kernel, absent from
`src/`. -/
def compute_collisions (tree : Option BBNode) (points : List Pt) : List (List ℕ) :=
  points.map (fun p =>
    match tree with
    | none => []
    | some n => pointCollisions p n)

/-- Modelled from the spec: simultaneous descent of two trees recording
the leaf pairs whose boxes overlap, pruning node pairs whose boxes do not
overlap.  The implementation lives in the compiled geometry kernel,
absent from `src/`. -/
def treeCollisions : BBNode → BBNode → List (ℕ × ℕ)
  | .leaf e1 b1, .leaf e2 b2 => if boxesCollide b1 b2 then [(e1, e2)] else []
  | .leaf e1 b1, .node b2 l2 r2 =>
      if boxesCollide b1 b2 then
        treeCollisions (.leaf e1 b1) l2 ++ treeCollisions (.leaf e1 b1) r2
      else []
  | .node b1 l1 r1, n2 =>
      if boxesCollide b1 (boxOf n2) then
        treeCollisions l1 n2 ++ treeCollisions r1 n2
      else []

/-- Modelled from the spec: the tree-tree variant of `compute_collisions`;
either tree being empty yields no pairs.  The implementation lives in the
compiled geometry kernel, absent from `src/`. -/
def compute_collisions_trees : Option BBNode → Option BBNode → List (ℕ × ℕ)
  | some n1, some n2 => treeCollisions n1 n2
  | _, _ => []

/-- Concrete two-entity tree for the closest-entity witness. -/
def wTreeC1 : BBNode :=
  .node ⟨⟨0, 0, 0⟩, ⟨3, 0, 0⟩⟩
    (.leaf 0 ⟨⟨0, 0, 0⟩, ⟨1, 0, 0⟩⟩)
    (.leaf 1 ⟨⟨2, 0, 0⟩, ⟨3, 0, 0⟩⟩)

/-- Concrete midpoint tree for the closest-entity witness. -/
def wMidC1 : BBNode :=
  .node ⟨⟨1/2, 0, 0⟩, ⟨5/2, 0, 0⟩⟩
    (.leaf 0 ⟨⟨1/2, 0, 0⟩, ⟨1/2, 0, 0⟩⟩)
    (.leaf 1 ⟨⟨5/2, 0, 0⟩, ⟨5/2, 0, 0⟩⟩)

/-- Concrete exact distance function for the closest-entity witness. -/
def wExactC1 : ℕ → Pt → ℚ :=
  fun e p => if e = 0 then boxDistSq p ⟨⟨0, 0, 0⟩, ⟨1, 0, 0⟩⟩
    else boxDistSq p ⟨⟨2, 0, 0⟩, ⟨3, 0, 0⟩⟩

/-- Concrete midpoint distance function for the closest-entity witness. -/
def wMidDC1 : ℕ → Pt → ℚ :=
  fun e p => if e = 0 then (p.sub ⟨1/2, 0, 0⟩).normSq
    else (p.sub ⟨5/2, 0, 0⟩).normSq


/-- Box containment is named well-formedness on optional trees. -/
def treeBoxWF : Option BBNode → Bool
  | none => true
  | some n => boxWF n

/-! ## Helper lemmas on the tree builder -/

/-- The tree built over a non-empty pair list exists and its leaves carry
exactly the input entities (as a permutation; the median split reorders). -/
theorem buildNode_spec (l : List (ℕ × Box)) (hne : l ≠ []) :
    ∃ n, buildNode l = some n ∧ (entitiesOf n).Perm (l.map Prod.fst) := by
  induction l using buildNode.induct with
  | case1 => exact absurd rfl hne
  | case2 pr =>
      refine ⟨.leaf pr.1 pr.2, ?_, by simp [entitiesOf]⟩
      rw [buildNode]
  | case3 p q rest L ax sorted k ln rn hdrop htake ihTake ihDrop =>
      have hlen : sorted.length = rest.length + 2 := by
        simp [sorted, List.length_mergeSort, L]
      have hkt : (List.take k sorted) ≠ [] := by
        have : (List.take k sorted).length = k := by
          simp [List.length_take, k]; omega
        intro hcon
        rw [hcon] at this
        simp [k, hlen] at this
      have hkd : (List.drop k sorted) ≠ [] := by
        have : (List.drop k sorted).length = sorted.length - k := by
          simp [List.length_drop]
        intro hcon
        rw [hcon] at this
        simp [k, hlen] at this
        omega
      obtain ⟨nl, hnl, pl⟩ := ihTake hkt
      obtain ⟨nr, hnr, pr2⟩ := ihDrop hkd
      rw [htake] at hnl
      rw [hdrop] at hnr
      cases hnl
      cases hnr
      refine ⟨.node (boxUnion (boxOf ln) (boxOf rn)) ln rn, ?_, ?_⟩
      · rw [buildNode]
        simp only [htake, hdrop]
      · have happ : (entitiesOf ln ++ entitiesOf rn).Perm
            ((List.take k sorted).map Prod.fst ++ (List.drop k sorted).map Prod.fst) :=
          pl.append pr2
        have hjoin : (List.take k sorted).map Prod.fst ++ (List.drop k sorted).map Prod.fst
            = sorted.map Prod.fst := by
          rw [← List.map_append, List.take_append_drop]
        have hperm : (sorted.map Prod.fst).Perm (L.map Prod.fst) :=
          (List.mergeSort_perm L _).map Prod.fst
        simp only [entitiesOf]
        exact (happ.trans (hjoin ▸ hperm))
  | case4 p q rest L ax sorted k hfalse ihTake ihDrop =>
      exfalso
      have hlen : sorted.length = rest.length + 2 := by
        simp [sorted, List.length_mergeSort, L]
      have hkt : (List.take k sorted) ≠ [] := by
        have : (List.take k sorted).length = k := by
          simp [List.length_take, k]; omega
        intro hcon
        rw [hcon] at this
        simp [k, hlen] at this
      have hkd : (List.drop k sorted) ≠ [] := by
        have : (List.drop k sorted).length = sorted.length - k := by
          simp [List.length_drop]
        intro hcon
        rw [hcon] at this
        simp [k, hlen] at this
        omega
      obtain ⟨nl, hnl, _⟩ := ihTake hkt
      obtain ⟨nr, hnr, _⟩ := ihDrop hkd
      exact hfalse nl nr hnl hnr

/-! ## Claim theorems: construction and elementwise queries -/

/-- C3: `BoundingBoxTree` construction fails, at construction time, if and
only if the mesh has no entity index map for the requested dimension;
with a map present it always returns a built tree. -/
theorem boundingBoxTree_init_error_iff_no_index_map (mesh : MeshT) (dim : ℕ)
    (entities : Option (List ℕ)) (padding : ℚ) :
    (∃ msg, BoundingBoxTree.init mesh dim entities padding = Except.error msg) ↔
      mesh.topology.index_map dim = none := by
  cases h : mesh.topology.index_map dim with
  | none => simp [BoundingBoxTree.init, h]
  | some m => simp [BoundingBoxTree.init, h]

/-- C4: constructing a `BoundingBoxTree` without an explicit entity list
builds the tree over exactly the entities `0 .. size_local + num_ghosts - 1`
of the requested dimension, owned and ghost entities alike. -/
theorem boundingBoxTree_init_default_entities (mesh : MeshT) (dim : ℕ)
    (padding : ℚ) (m : IndexMap) (h : mesh.topology.index_map dim = some m) :
    ∃ t, BoundingBoxTree.init mesh dim none padding = Except.ok t ∧
      (treeEntities t).Perm (List.range (m.size_local + m.num_ghosts)) := by
  unfold BoundingBoxTree.init
  rw [h]
  simp only [Option.getD_none]
  set l := (List.range (m.size_local + m.num_ghosts)).map
    (fun e => (e, pad (entityBox mesh dim e) padding)) with hl
  have hmap : l.map Prod.fst = List.range (m.size_local + m.num_ghosts) := by
    simp [hl, List.map_map, Function.comp_def]
  by_cases hz : m.size_local + m.num_ghosts = 0
  · refine ⟨buildTree l, rfl, ?_⟩
    have : l = [] := by simp [hl, hz]
    rw [this]
    simp [buildTree, buildNode, treeEntities, hz]
  · have hne : l ≠ [] := by
      intro hcon
      have hlen := congrArg List.length hcon
      simp [hl] at hlen
      exact hz (by omega)
    obtain ⟨n, hn, hperm⟩ := buildNode_spec l hne
    refine ⟨buildTree l, rfl, ?_⟩
    rw [buildTree, hn]
    rw [treeEntities, hmap] at *
    exact hmap ▸ hperm

/-- C4 witness: a concrete mesh with 2 owned and 1 ghost cells. -/
theorem boundingBoxTree_init_default_entities_witness :
    (MeshT.mk ⟨fun d => if d = 2 then some ⟨2, 1⟩ else none⟩
        (fun _ e => [⟨(e : ℚ), 0, 0⟩])).topology.index_map 2 = some ⟨2, 1⟩ ∧
      ∃ t, BoundingBoxTree.init
          (MeshT.mk ⟨fun d => if d = 2 then some ⟨2, 1⟩ else none⟩
            (fun _ e => [⟨(e : ℚ), 0, 0⟩])) 2 none 0 = Except.ok t ∧
        (treeEntities t).Perm (List.range (2 + 1)) :=
  ⟨rfl, boundingBoxTree_init_default_entities _ 2 0 ⟨2, 1⟩ rfl⟩

/-- C2: when the bounding box tree contains zero entities,
`compute_closest_entity` returns the sentinel `-1` for every point and
does not fail. -/
theorem compute_closest_entity_empty_tree (midTree : Option BBNode)
    (exactD midD : ℕ → Pt → ℚ) (points : List Pt) :
    compute_closest_entity none midTree exactD midD points
      = points.map (fun _ => (-1 : ℤ)) := by
  cases midTree <;> rfl

/-- C5: with equal-length inputs, `squared_distance` succeeds and its ith
element is the exact squared distance from the ith point to the ith
entity's geometry, elementwise over the paired inputs. -/
theorem squared_distance_elementwise (mesh : MeshT) (dim : ℕ)
    (entities : List ℕ) (points : List Pt)
    (h : entities.length = points.length) :
    ∃ l, squared_distance mesh dim entities points = Except.ok l ∧
      l.length = points.length ∧
      ∀ i (h1 : i < entities.length) (h2 : i < points.length) (h3 : i < l.length),
        l.get ⟨i, h3⟩ = squared_distance_point_to_simplex (points.get ⟨i, h2⟩)
          (mesh.vertices dim (entities.get ⟨i, h1⟩)) := by
  refine ⟨List.zipWith
    (fun e p => squared_distance_point_to_simplex p (mesh.vertices dim e))
    entities points, ?_, ?_, ?_⟩
  · rw [squared_distance, if_neg]
    omega
  · rw [List.length_zipWith, h, min_self]
  · intro i h1 h2 h3
    simp [List.get_eq_getElem, List.getElem_zipWith]

/-- C5 witness: two entities paired with two points. -/
theorem squared_distance_elementwise_witness :
    ([5, 7] : List ℕ).length = ([(⟨0, 0, 0⟩ : Pt), ⟨1, 2, 3⟩]).length ∧
      ∃ l, squared_distance (MeshT.mk ⟨fun _ => none⟩
            (fun _ e => [⟨(e : ℚ), 0, 0⟩])) 1 [5, 7]
            [(⟨0, 0, 0⟩ : Pt), ⟨1, 2, 3⟩] = Except.ok l ∧
        l.length = ([(⟨0, 0, 0⟩ : Pt), ⟨1, 2, 3⟩]).length ∧
        ∀ i (h1 : i < ([5, 7] : List ℕ).length)
            (h2 : i < ([(⟨0, 0, 0⟩ : Pt), ⟨1, 2, 3⟩]).length) (h3 : i < l.length),
          l.get ⟨i, h3⟩ = squared_distance_point_to_simplex
            (([(⟨0, 0, 0⟩ : Pt), ⟨1, 2, 3⟩]).get ⟨i, h2⟩)
            ((MeshT.mk ⟨fun _ => none⟩ (fun _ e => [⟨(e : ℚ), 0, 0⟩])).vertices 1
              (([5, 7] : List ℕ).get ⟨i, h1⟩)) :=
  ⟨rfl, squared_distance_elementwise _ 1 _ _ rfl⟩

/-- C6: with mismatched input lengths, `squared_distance` fails with the
`InvalidArgument` error, and does so before any distance computation: the
result does not depend on the mesh geometry at all. -/
theorem squared_distance_length_mismatch (mesh mesh' : MeshT) (dim : ℕ)
    (entities : List ℕ) (points : List Pt)
    (h : entities.length ≠ points.length) :
    squared_distance mesh dim entities points
        = Except.error "InvalidArgument: entities and points have different lengths" ∧
      squared_distance mesh dim entities points
        = squared_distance mesh' dim entities points := by
  constructor
  · rw [squared_distance, if_pos h]
  · rw [squared_distance, if_pos h, squared_distance, if_pos h]

/-- C6 witness: one entity against two points. -/
theorem squared_distance_length_mismatch_witness :
    ([5] : List ℕ).length ≠ ([(⟨0, 0, 0⟩ : Pt), ⟨1, 2, 3⟩]).length ∧
      (squared_distance (MeshT.mk ⟨fun _ => none⟩ (fun _ _ => [])) 1 [5]
          [(⟨0, 0, 0⟩ : Pt), ⟨1, 2, 3⟩]
          = Except.error "InvalidArgument: entities and points have different lengths" ∧
        squared_distance (MeshT.mk ⟨fun _ => none⟩ (fun _ _ => [])) 1 [5]
            [(⟨0, 0, 0⟩ : Pt), ⟨1, 2, 3⟩]
          = squared_distance (MeshT.mk ⟨fun _ => none⟩ (fun _ _ => [Pt.zero])) 1 [5]
              [(⟨0, 0, 0⟩ : Pt), ⟨1, 2, 3⟩]) :=
  ⟨by decide, squared_distance_length_mismatch _ _ 1 _ _ (by decide)⟩

/-- C9: `compute_collisions` against a tree built over zero entities
returns one adjacency row per point, every row empty, for any non-empty
point array. -/
theorem compute_collisions_empty_tree (points : List Pt) (_hne : points ≠ []) :
    compute_collisions (buildTree []) points = points.map (fun _ => ([] : List ℕ)) ∧
      (compute_collisions (buildTree []) points).length = points.length := by
  have hbt : buildTree [] = (none : Option BBNode) := by rw [buildTree, buildNode]
  rw [hbt]
  constructor
  · rfl
  · simp [compute_collisions]

/-- C9 witness: one query point against the empty tree. -/
theorem compute_collisions_empty_tree_witness :
    ([(⟨0, 0, 0⟩ : Pt)] : List Pt) ≠ [] ∧
      (compute_collisions (buildTree []) [(⟨0, 0, 0⟩ : Pt)]
          = [(⟨0, 0, 0⟩ : Pt)].map (fun _ => ([] : List ℕ)) ∧
        (compute_collisions (buildTree []) [(⟨0, 0, 0⟩ : Pt)]).length
          = ([(⟨0, 0, 0⟩ : Pt)] : List Pt).length) :=
  ⟨by decide, compute_collisions_empty_tree _ (by decide)⟩

/-! ## Closest-entity search lemmas -/

/-- The leftmost leaf's entity is among the node's entities. -/
theorem leftmostLeaf_mem (n : BBNode) : (leftmostLeaf n).1 ∈ entitiesOf n := by
  induction n with
  | leaf e b => simp [leftmostLeaf, entitiesOf]
  | node b l r ihl ihr =>
      simp only [leftmostLeaf, entitiesOf, List.mem_append]
      exact Or.inl ihl

/-- The descent never worsens the bound, and its result is either the
initial accumulator or an entity of the tree achieving its own value. -/
theorem closestDescend_result (p : Pt) (f : ℕ → ℚ) (n : BBNode) (acc : ℕ × ℚ) :
    (closestDescend p f n acc).2 ≤ acc.2 ∧
      (closestDescend p f n acc = acc ∨
        ((closestDescend p f n acc).1 ∈ entitiesOf n ∧
          (closestDescend p f n acc).2 = f (closestDescend p f n acc).1)) := by
  induction n generalizing acc with
  | leaf e b =>
      rw [closestDescend]
      split
      · exact ⟨le_refl _, Or.inl rfl⟩
      · split
        · next hlt => exact ⟨le_of_lt hlt, Or.inr ⟨by simp [entitiesOf], rfl⟩⟩
        · exact ⟨le_refl _, Or.inl rfl⟩
  | node b l r ihl ihr =>
      rw [closestDescend]
      split
      · exact ⟨le_refl _, Or.inl rfl⟩
      · have hl := ihl acc
        have hr := ihr (closestDescend p f l acc)
        refine ⟨le_trans hr.1 hl.1, ?_⟩
        rcases hr.2 with h2 | h2
        · rw [h2]
          rcases hl.2 with h1 | h1
          · exact Or.inl h1
          · refine Or.inr ⟨?_, h1.2⟩
            simp only [entitiesOf, List.mem_append]
            exact Or.inl h1.1
        · refine Or.inr ⟨?_, h2.2⟩
          simp only [entitiesOf, List.mem_append]
          exact Or.inr h2.1

/-- Under the bounding-box invariant, the final bound of the descent is a
lower bound of `f` on every entity of the tree. -/
theorem closestDescend_le (p : Pt) (f : ℕ → ℚ) (n : BBNode) (acc : ℕ × ℚ)
    (hwf : nodeWF p f n = true) :
    ∀ e ∈ entitiesOf n, (closestDescend p f n acc).2 ≤ f e := by
  induction n generalizing acc with
  | leaf e0 b =>
      intro e he
      simp only [entitiesOf, List.mem_singleton] at he
      subst he
      rw [nodeWF, decide_eq_true_iff] at hwf
      rw [closestDescend]
      split
      · next hgt => exact le_trans (le_of_lt hgt) hwf
      · split
        · next hlt => exact le_refl _
        · next hnlt => exact le_of_not_lt hnlt
  | node b l r ihl ihr =>
      intro e he
      simp only [nodeWF, Bool.and_eq_true, List.all_eq_true,
        decide_eq_true_iff] at hwf
      obtain ⟨⟨hall, hwl⟩, hwr⟩ := hwf
      have hm : e ∈ entitiesOf l ++ entitiesOf r := by
        simpa only [entitiesOf] using he
      rw [closestDescend]
      split
      · next hgt => exact le_trans (le_of_lt hgt) (hall e hm)
      · rcases List.mem_append.mp hm with hml | hmr
        · exact le_trans (closestDescend_result p f r _).1 (ihl acc hwl e hml)
        · exact ihr (closestDescend p f l acc) hwr e hmr

/-- When the initial accumulator already holds an entity of the tree at a
value dominating its `f`-distance, the descent returns an entity of the
tree that minimises `f` globally over the tree's entities. -/
theorem closestDescend_min (p : Pt) (f : ℕ → ℚ) (n : BBNode) (acc : ℕ × ℚ)
    (hwf : nodeWF p f n = true) (hacc1 : acc.1 ∈ entitiesOf n)
    (hacc2 : f acc.1 ≤ acc.2) :
    (closestDescend p f n acc).1 ∈ entitiesOf n ∧
      ∀ e2 ∈ entitiesOf n, f (closestDescend p f n acc).1 ≤ f e2 := by
  obtain ⟨hle, hor⟩ := closestDescend_result p f n acc
  have hB := closestDescend_le p f n acc hwf
  rcases hor with h | h
  · rw [h]
    refine ⟨hacc1, fun e2 he2 => ?_⟩
    have h2 := hB e2 he2
    rw [h] at h2
    exact le_trans hacc2 h2
  · exact ⟨h.1, fun e2 he2 => h.2 ▸ hB e2 he2⟩

/-- Phase one's result is an entity of the midpoint tree together with
its own midpoint distance as the bound. -/
theorem phase1_candidate (p : Pt) (g : ℕ → ℚ) (mn : BBNode) :
    (closestDescend p g mn ((leftmostLeaf mn).1, g (leftmostLeaf mn).1)).1
        ∈ entitiesOf mn ∧
      (closestDescend p g mn ((leftmostLeaf mn).1, g (leftmostLeaf mn).1)).2
        = g (closestDescend p g mn
              ((leftmostLeaf mn).1, g (leftmostLeaf mn).1)).1 := by
  obtain ⟨_, hor⟩ := closestDescend_result p g mn
    ((leftmostLeaf mn).1, g (leftmostLeaf mn).1)
  rcases hor with h | h
  · rw [h]
    exact ⟨leftmostLeaf_mem mn, rfl⟩
  · exact h

/-- The per-point two-phase search returns an entity of the full tree
whose exact distance is globally minimal over the tree's entities. -/
theorem closestEntityPoint_min (tn mn : BBNode) (exactD midD : ℕ → Pt → ℚ)
    (p : Pt) (hwf : nodeWF p (fun e => exactD e p) tn = true)
    (hmid : ∀ e ∈ entitiesOf mn, e ∈ entitiesOf tn ∧ exactD e p ≤ midD e p) :
    ∃ e : ℕ, closestEntityPoint tn mn exactD midD p = (e : ℤ) ∧
      e ∈ entitiesOf tn ∧ ∀ e2 ∈ entitiesOf tn, exactD e p ≤ exactD e2 p := by
  obtain ⟨hc1, hc2⟩ := phase1_candidate p (fun e => midD e p) mn
  obtain ⟨hmem, hdom⟩ := hmid _ hc1
  have hmin := closestDescend_min p (fun e => exactD e p) tn
    (closestDescend p (fun e => midD e p) mn
      ((leftmostLeaf mn).1, midD (leftmostLeaf mn).1 p))
    hwf hmem (le_trans hdom (le_of_eq hc2.symm))
  exact ⟨_, rfl, hmin.1, hmin.2⟩

/-- C1: for a non-empty tree and midpoint tree over the same entities,
`compute_closest_entity` maps each point to an entity of the tree whose
exact squared distance is globally minimal over all entities in the tree:
the midpoint tree (whose midpoint distances dominate the exact distances)
only accelerates the search and never changes the final answer. -/
theorem compute_closest_entity_globally_minimal (tn mn : BBNode)
    (exactD midD : ℕ → Pt → ℚ) (points : List Pt)
    (hwf : ∀ p ∈ points, nodeWF p (fun e => exactD e p) tn = true)
    (hmid : ∀ p ∈ points, ∀ e ∈ entitiesOf mn,
        e ∈ entitiesOf tn ∧ exactD e p ≤ midD e p) :
    compute_closest_entity (some tn) (some mn) exactD midD points
        = points.map (closestEntityPoint tn mn exactD midD) ∧
      ∀ p ∈ points, ∃ e : ℕ,
        closestEntityPoint tn mn exactD midD p = (e : ℤ) ∧
          e ∈ entitiesOf tn ∧ ∀ e2 ∈ entitiesOf tn, exactD e p ≤ exactD e2 p :=
  ⟨rfl, fun p hp => closestEntityPoint_min tn mn exactD midD p (hwf p hp)
    (hmid p hp)⟩

/-- The concrete tree satisfies the bounding invariant at the witness point. -/
theorem wTreeC1_wf :
    ∀ p ∈ [(⟨5, 0, 0⟩ : Pt)], nodeWF p (fun e => wExactC1 e p) wTreeC1 = true := by
  norm_num [wTreeC1, nodeWF, entitiesOf, boxDistSq, axDist, wExactC1,
    Pt.dot, List.all]

/-- The concrete midpoint distances dominate the exact distances at the
witness point, over the shared entities. -/
theorem wMidC1_dom :
    ∀ p ∈ [(⟨5, 0, 0⟩ : Pt)], ∀ e ∈ entitiesOf wMidC1,
      e ∈ entitiesOf wTreeC1 ∧ wExactC1 e p ≤ wMidDC1 e p := by
  norm_num [wTreeC1, wMidC1, entitiesOf, boxDistSq, axDist, wExactC1, wMidDC1,
    Pt.sub, Pt.normSq, Pt.dot]

/-- C1 witness: one query point against the concrete two-entity trees. -/
theorem compute_closest_entity_globally_minimal_witness :
    (∀ p ∈ [(⟨5, 0, 0⟩ : Pt)], nodeWF p (fun e => wExactC1 e p) wTreeC1 = true) ∧
      (∀ p ∈ [(⟨5, 0, 0⟩ : Pt)], ∀ e ∈ entitiesOf wMidC1,
        e ∈ entitiesOf wTreeC1 ∧ wExactC1 e p ≤ wMidDC1 e p) ∧
      (compute_closest_entity (some wTreeC1) (some wMidC1) wExactC1 wMidDC1
            [(⟨5, 0, 0⟩ : Pt)]
          = [(⟨5, 0, 0⟩ : Pt)].map
              (closestEntityPoint wTreeC1 wMidC1 wExactC1 wMidDC1) ∧
        ∀ p ∈ [(⟨5, 0, 0⟩ : Pt)], ∃ e : ℕ,
          closestEntityPoint wTreeC1 wMidC1 wExactC1 wMidDC1 p = (e : ℤ) ∧
            e ∈ entitiesOf wTreeC1 ∧
            ∀ e2 ∈ entitiesOf wTreeC1, wExactC1 e p ≤ wExactC1 e2 p) :=
  ⟨wTreeC1_wf, wMidC1_dom,
    compute_closest_entity_globally_minimal wTreeC1 wMidC1 wExactC1 wMidDC1
      [(⟨5, 0, 0⟩ : Pt)] wTreeC1_wf wMidC1_dom⟩

/-! ## Claim theorems: GJK totality -/

/-- The support point of a non-empty vertex set always exists. -/
theorem supportPt_ok (vs : List Pt) (d : Pt) (h : vs ≠ []) :
    ∃ s, supportPt vs d = Except.ok s := by
  cases vs with
  | nil => exact absurd rfl h
  | cons v rest => exact ⟨_, rfl⟩

/-- The Minkowski-difference support point of two non-empty vertex sets
always exists. -/
theorem minkSupport_ok (vs1 vs2 : List Pt) (d : Pt) (h1 : vs1 ≠ [])
    (h2 : vs2 ≠ []) : ∃ s, minkSupport vs1 vs2 d = Except.ok s := by
  obtain ⟨s1, hs1⟩ := supportPt_ok vs1 d h1
  obtain ⟨s2, hs2⟩ := supportPt_ok vs2 d.neg h2
  refine ⟨s1.sub s2, ?_⟩
  rw [minkSupport, hs1, hs2]

/-- Every GJK iteration pass over non-empty vertex sets returns a
non-negative numeric value, for any fuel and simplex. -/
theorem gjkLoop_ok (vs1 vs2 : List Pt) (h1 : vs1 ≠ []) (h2 : vs2 ≠ [])
    (fuel : ℕ) (simplex : List Pt) :
    ∃ q, gjkLoop vs1 vs2 fuel simplex = Except.ok q ∧ 0 ≤ q := by
  induction fuel generalizing simplex with
  | zero => exact ⟨_, rfl, le_max_left 0 _⟩
  | succ fuel ih =>
      rw [gjkLoop]
      split
      · exact ⟨0, rfl, le_refl 0⟩
      · split
        · next e heq =>
            obtain ⟨w, hw⟩ :=
              minkSupport_ok vs1 vs2 ((closestSimplex simplex).1).neg h1 h2
            rw [hw] at heq
            cases heq
        · next w heq =>
            split
            · exact ⟨_, rfl, le_max_left 0 _⟩
            · exact ih _

/-- C7: on any pair of non-empty vertex sets `compute_distance_gjk`
terminates within the fixed iteration cap by construction, never fails,
and returns a non-negative numeric value; when the fuel of the bounded
iteration runs out it returns the best estimate found (the clamped
squared norm of the current closest point) rather than an error. -/
theorem compute_distance_gjk_total (vs1 vs2 : List Pt) (h1 : vs1 ≠ [])
    (h2 : vs2 ≠ []) :
    (∃ q, compute_distance_gjk vs1 vs2 = Except.ok q ∧ 0 ≤ q) ∧
      ∀ s, gjkLoop vs1 vs2 0 s
        = Except.ok (clamp0 ((closestSimplex s).1).normSq) := by
  constructor
  · cases vs1 with
    | nil => exact absurd rfl h1
    | cons v t1 =>
        cases vs2 with
        | nil => exact absurd rfl h2
        | cons w t2 =>
            rw [compute_distance_gjk]
            exact gjkLoop_ok _ _ h1 h2 gjkMaxIter _
  · intro s
    rfl

/-- C7 witness: two concrete one-point hulls. -/
theorem compute_distance_gjk_total_witness :
    ([(⟨0, 0, 0⟩ : Pt)] : List Pt) ≠ [] ∧ ([(⟨1, 0, 0⟩ : Pt)] : List Pt) ≠ [] ∧
      ((∃ q, compute_distance_gjk [(⟨0, 0, 0⟩ : Pt)] [(⟨1, 0, 0⟩ : Pt)]
            = Except.ok q ∧ 0 ≤ q) ∧
        ∀ s, gjkLoop [(⟨0, 0, 0⟩ : Pt)] [(⟨1, 0, 0⟩ : Pt)] 0 s
          = Except.ok (clamp0 ((closestSimplex s).1).normSq)) :=
  ⟨by decide, by decide,
    compute_distance_gjk_total _ _ (by decide) (by decide)⟩

/-! ## Tree-tree collision lemmas -/

/-- Box overlap is symmetric. -/
theorem boxesCollide_symm {a b : Box} (h : boxesCollide a b) : boxesCollide b a := by
  obtain ⟨h1, h2, h3, h4, h5, h6⟩ := h
  exact ⟨h2, h1, h4, h3, h6, h5⟩

/-- Box overlap is monotone under enlargement of one side. -/
theorem boxesCollide_mono {a b c : Box} (hsub : boxSubset b a)
    (h : boxesCollide b c) : boxesCollide a c := by
  obtain ⟨s1, s2, s3, s4, s5, s6⟩ := hsub
  obtain ⟨h1, h2, h3, h4, h5, h6⟩ := h
  refine ⟨?_, ?_, ?_, ?_, ?_, ?_⟩ <;> linarith

/-- Under the box invariant, whatever collides with a leaf's box collides
with the whole subtree's box. -/
theorem leafIn_collide {e : ℕ} {bx : Box} {n : BBNode} (h : LeafIn e bx n)
    (hwf : boxWF n = true) {c : Box} (hc : boxesCollide bx c) :
    boxesCollide (boxOf n) c := by
  induction h with
  | leaf => exact hc
  | left b hl ih =>
      simp only [boxWF, Bool.and_eq_true, decide_eq_true_iff] at hwf
      obtain ⟨⟨⟨hs1, _⟩, hw1⟩, _⟩ := hwf
      exact boxesCollide_mono hs1 (ih hw1)
  | right b hr ih =>
      simp only [boxWF, Bool.and_eq_true, decide_eq_true_iff] at hwf
      obtain ⟨⟨⟨_, hs2⟩, _⟩, hw2⟩ := hwf
      exact boxesCollide_mono hs2 (ih hw2)

/-- Inversion of leaf membership at an internal node. -/
theorem leafIn_node_iff {e : ℕ} {bx : Box} {b : Box} {l r : BBNode} :
    LeafIn e bx (.node b l r) ↔ LeafIn e bx l ∨ LeafIn e bx r := by
  constructor
  · intro h
    cases h with
    | left _ h => exact Or.inl h
    | right _ h => exact Or.inr h
  · intro h
    rcases h with h | h
    · exact LeafIn.left b h
    · exact LeafIn.right b h

/-- Inversion of leaf membership at a leaf. -/
theorem leafIn_leaf_iff {e : ℕ} {bx : Box} {e1 : ℕ} {b1 : Box} :
    LeafIn e bx (.leaf e1 b1) ↔ e = e1 ∧ bx = b1 := by
  constructor
  · intro h
    cases h
    exact ⟨rfl, rfl⟩
  · rintro ⟨rfl, rfl⟩
    exact LeafIn.leaf _ _

/-- Characterisation of the tree-tree collision list: under the box
invariant on both trees, a pair is recorded exactly when the two leaves
exist in the respective trees and their boxes overlap (the box-level
pruning never loses such a pair). -/
theorem mem_treeCollisions (a b : ℕ) (n1 n2 : BBNode) (hwf1 : boxWF n1 = true)
    (hwf2 : boxWF n2 = true) :
    (a, b) ∈ treeCollisions n1 n2 ↔
      ∃ ba bb, LeafIn a ba n1 ∧ LeafIn b bb n2 ∧ boxesCollide ba bb := by
  induction n1, n2 using treeCollisions.induct with
  | case1 e1 b1 e2 b2 hc =>
      rw [treeCollisions, if_pos hc]
      simp only [List.mem_singleton, Prod.mk.injEq, leafIn_leaf_iff]
      constructor
      · rintro ⟨rfl, rfl⟩
        exact ⟨b1, b2, ⟨rfl, rfl⟩, ⟨rfl, rfl⟩, hc⟩
      · rintro ⟨ba, bb, ⟨rfl, rfl⟩, ⟨rfl, rfl⟩, _⟩
        exact ⟨rfl, rfl⟩
  | case2 e1 b1 e2 b2 hc =>
      rw [treeCollisions, if_neg hc]
      simp only [List.not_mem_nil, false_iff]
      rintro ⟨ba, bb, h1, h2, hcol⟩
      rw [leafIn_leaf_iff] at h1 h2
      obtain ⟨rfl, rfl⟩ := h1
      obtain ⟨rfl, rfl⟩ := h2
      exact hc hcol
  | case3 e1 b1 b2 l2 r2 hc ih1 ih2 =>
      have hwfl : boxWF l2 = true := by
        simp only [boxWF, Bool.and_eq_true] at hwf2
        exact hwf2.1.2
      have hwfr : boxWF r2 = true := by
        simp only [boxWF, Bool.and_eq_true] at hwf2
        exact hwf2.2
      rw [treeCollisions, if_pos hc]
      rw [List.mem_append, ih1 hwf1 hwfl, ih2 hwf1 hwfr]
      constructor
      · rintro (⟨ba, bb, h1, h2, hcol⟩ | ⟨ba, bb, h1, h2, hcol⟩)
        · exact ⟨ba, bb, h1, LeafIn.left b2 h2, hcol⟩
        · exact ⟨ba, bb, h1, LeafIn.right b2 h2, hcol⟩
      · rintro ⟨ba, bb, h1, h2, hcol⟩
        rw [leafIn_node_iff] at h2
        rcases h2 with h2 | h2
        · exact Or.inl ⟨ba, bb, h1, h2, hcol⟩
        · exact Or.inr ⟨ba, bb, h1, h2, hcol⟩
  | case4 e1 b1 b2 l2 r2 hc =>
      rw [treeCollisions, if_neg hc]
      simp only [List.not_mem_nil, false_iff]
      rintro ⟨ba, bb, h1, h2, hcol⟩
      rw [leafIn_leaf_iff] at h1
      obtain ⟨rfl, rfl⟩ := h1
      exact hc (boxesCollide_symm (leafIn_collide h2 hwf2
        (boxesCollide_symm hcol)))
  | case5 b1 l1 r1 n2 hc ih1 ih2 =>
      have hwfl : boxWF l1 = true := by
        simp only [boxWF, Bool.and_eq_true] at hwf1
        exact hwf1.1.2
      have hwfr : boxWF r1 = true := by
        simp only [boxWF, Bool.and_eq_true] at hwf1
        exact hwf1.2
      rw [treeCollisions, if_pos hc]
      rw [List.mem_append, ih1 hwfl hwf2, ih2 hwfr hwf2]
      constructor
      · rintro (⟨ba, bb, h1, h2, hcol⟩ | ⟨ba, bb, h1, h2, hcol⟩)
        · exact ⟨ba, bb, LeafIn.left b1 h1, h2, hcol⟩
        · exact ⟨ba, bb, LeafIn.right b1 h1, h2, hcol⟩
      · rintro ⟨ba, bb, h1, h2, hcol⟩
        rw [leafIn_node_iff] at h1
        rcases h1 with h1 | h1
        · exact Or.inl ⟨ba, bb, h1, h2, hcol⟩
        · exact Or.inr ⟨ba, bb, h1, h2, hcol⟩
  | case6 b1 l1 r1 n2 hc =>
      rw [treeCollisions, if_neg hc]
      simp only [List.not_mem_nil, false_iff]
      rintro ⟨ba, bb, h1, h2, hcol⟩
      exact hc (boxesCollide_symm (leafIn_collide h2 hwf2
        (boxesCollide_symm (leafIn_collide h1 hwf1 hcol))))

/-- C10: the unordered pair set produced by the tree-tree variant of
`compute_collisions` is invariant under swapping the two trees: a pair
`(a, b)` is recorded for `(t1, t2)` exactly when `(b, a)` is recorded for
`(t2, t1)`. -/
theorem compute_collisions_trees_symm (t1 t2 : Option BBNode)
    (h1 : treeBoxWF t1 = true) (h2 : treeBoxWF t2 = true) :
    ∀ a b, (a, b) ∈ compute_collisions_trees t1 t2 ↔
      (b, a) ∈ compute_collisions_trees t2 t1 := by
  intro a b
  cases t1 with
  | none =>
      cases t2 <;> simp [compute_collisions_trees]
  | some n1 =>
      cases t2 with
      | none => simp [compute_collisions_trees]
      | some n2 =>
          rw [treeBoxWF] at h1 h2
          show (a, b) ∈ treeCollisions n1 n2 ↔ (b, a) ∈ treeCollisions n2 n1
          rw [mem_treeCollisions a b n1 n2 h1 h2,
            mem_treeCollisions b a n2 n1 h2 h1]
          constructor
          · rintro ⟨ba, bb, hA, hB, hcol⟩
            exact ⟨bb, ba, hB, hA, boxesCollide_symm hcol⟩
          · rintro ⟨bb, ba, hB, hA, hcol⟩
            exact ⟨ba, bb, hA, hB, boxesCollide_symm hcol⟩

/-- C10 witness: a two-leaf tree against a one-leaf tree. -/
theorem compute_collisions_trees_symm_witness :
    treeBoxWF (some (.node ⟨⟨0, 0, 0⟩, ⟨3, 1, 1⟩⟩
        (.leaf 0 ⟨⟨0, 0, 0⟩, ⟨1, 1, 1⟩⟩) (.leaf 1 ⟨⟨2, 0, 0⟩, ⟨3, 1, 1⟩⟩))) = true ∧
      treeBoxWF (some (.leaf 7 ⟨⟨1, 0, 0⟩, ⟨2, 1, 1⟩⟩)) = true ∧
      ∀ a b, (a, b) ∈ compute_collisions_trees
          (some (.node ⟨⟨0, 0, 0⟩, ⟨3, 1, 1⟩⟩
            (.leaf 0 ⟨⟨0, 0, 0⟩, ⟨1, 1, 1⟩⟩) (.leaf 1 ⟨⟨2, 0, 0⟩, ⟨3, 1, 1⟩⟩)))
          (some (.leaf 7 ⟨⟨1, 0, 0⟩, ⟨2, 1, 1⟩⟩)) ↔
        (b, a) ∈ compute_collisions_trees
          (some (.leaf 7 ⟨⟨1, 0, 0⟩, ⟨2, 1, 1⟩⟩))
          (some (.node ⟨⟨0, 0, 0⟩, ⟨3, 1, 1⟩⟩
            (.leaf 0 ⟨⟨0, 0, 0⟩, ⟨1, 1, 1⟩⟩) (.leaf 1 ⟨⟨2, 0, 0⟩, ⟨3, 1, 1⟩⟩))) :=
  ⟨by decide, by decide,
    compute_collisions_trees_symm _ _ (by decide) (by decide)⟩
